import Mathlib

/-!
Verification development for the aiojolokia Jolokia client.

The definitions below are a shallow embedding of `aiojolokia/client.py` and
`aiojolokia/models.py`: JSON values are an inductive type, the pydantic
models become structures with explicit parsers, Python string `split`/`join`
become executable functions on `List Char`, and the `request` async
generator becomes a function producing the ordered trace of events (yielded
responses, raised errors) that a consumer iterating the generator observes.
-/

set_option autoImplicit false

namespace Aiojolokia

/-- JSON values as delivered by the transport layer. Numbers are modelled as
integers (Jolokia status codes and the payloads exercised here are integral);
objects are association lists in key order. -/
inductive Json where
  | null
  | bool (b : Bool)
  | num (n : Int)
  | str (s : String)
  | arr (elems : List Json)
  | obj (fields : List (String × Json))

/-- First value bound to a key in a JSON object, like Python dict access. -/
def lookupJ (k : String) : List (String × Json) → Option Json
  | [] => none
  | (k1, v) :: rest => if k1 = k then some v else lookupJ k rest

/-- The space character, used in the `": "` separator. -/
def spc : Char := Char.ofNat 32

/-- Python `s.split(": ")` on the character list: split at every
non-overlapping occurrence of `": "`, scanning left to right. -/
def splitCS : List Char → List (List Char)
  | [] => [[]]
  | [c] => [[c]]
  | c1 :: c2 :: rest =>
    if c1 = ':' ∧ c2 = spc then [] :: splitCS rest
    else
      match splitCS (c2 :: rest) with
      | [] => [[c1]]
      | t :: ts => (c1 :: t) :: ts

/-- Python `": ".join(tokens)` on character lists. -/
def joinCS : List (List Char) → List Char
  | [] => []
  | [t] => t
  | t :: ts => t ++ ':' :: spc :: joinCS ts

/-- Everything after the first occurrence of `": "`, or `none` when the
separator does not occur. This is the specification-side reading of
"drop everything up to and including the first occurrence". -/
def tailCS : List Char → Option (List Char)
  | [] => none
  | [_] => none
  | c1 :: c2 :: rest =>
    if c1 = ':' ∧ c2 = spc then some rest else tailCS (c2 :: rest)

/-- Python `s.split(".")` on the character list. -/
def splitDot : List Char → List (List Char)
  | [] => [[]]
  | c :: rest =>
    if c = '.' then [] :: splitDot rest
    else
      match splitDot rest with
      | [] => [[c]]
      | t :: ts => (c :: t) :: ts

/-- Python `response.error_type.split(".")[-1]`: the last token of the
dot-split, i.e. the substring after the last dot. -/
def lastDotSegment (s : String) : String :=
  String.mk ((splitDot s.data).getLastD [])

/-- Python `": ".join(error.split(": ")[1:])` as performed by
`JolokiaClient._build_exception`. -/
def dropColonPrefix (s : String) : String :=
  String.mk (joinCS ((splitCS s.data).drop 1))

/-- The closed set of Jolokia operation kinds (`models.Operation`). -/
inductive Operation where
  | read
  | write
  | exec
  | search
  | list
  | version
  deriving DecidableEq

/-- Wire string of an operation kind (the enum value). -/
def Operation.toWire : Operation → String
  | .read => "read"
  | .write => "write"
  | .exec => "exec"
  | .search => "search"
  | .list => "list"
  | .version => "version"

/-- Resolve a wire string back to an operation kind, if it names one. -/
def Operation.fromWire (s : String) : Option Operation :=
  if s = "read" then some .read
  else if s = "write" then some .write
  else if s = "exec" then some .exec
  else if s = "search" then some .search
  else if s = "list" then some .list
  else if s = "version" then some .version
  else none

/-- One entry of the optional `history` sequence (`models.HistoricalValue`).
The required `value` field may itself be JSON null, which pydantic delivers
as Python `None`; we model that as `none`. The epoch timestamp is kept as
the integer received on the wire (its conversion to a calendar datetime is
a rendering concern of the external datetime library). -/
structure HistoricalValue where
  value : Option Json := none
  timestamp : Option Int := none

/-- One operation invocation (`models.JolokiaRequest`). Optional fields are
Python `None` when absent; `value : Any | None` conflates JSON null with
absence, so a present value is `some`. -/
structure JolokiaRequest where
  type : Operation
  mbean : Option String := none
  «attribute» : Option String := none
  path : Option String := none
  value : Option Json := none
  operation_name : Option String := none
  arguments : Option (List Json) := none

/-- One result entry (`models.JolokiaResponse`). -/
structure JolokiaResponse where
  status : Int
  value : Option Json := none
  history : Option (List HistoricalValue) := none
  request : Option JolokiaRequest := none
  timestamp : Option Int := none
  error_type : Option String := none
  error : Option String := none
  stacktrace : Option String := none

/-- The runtime class of a Python exception value in this client: the
builtin `Exception`, the library base `class JavaException(Exception)`, or a
class generated at runtime by `type(exc_name, (JavaException,), ...)`. -/
inductive ExcClass where
  | excBase
  | javaExceptionCls
  | dynamic (name : String)
  deriving DecidableEq

/-- Sole base class of each class, mirroring the declared hierarchy. -/
def ExcClass.pyBase : ExcClass → Option ExcClass
  | .excBase => none
  | .javaExceptionCls => some .excBase
  | .dynamic _ => some .javaExceptionCls

/-- Python `issubclass`: walk the base chain, whose depth here is at most
three (`dynamic` to `JavaException` to `Exception`). -/
def ExcClass.isSubclassOf (c d : ExcClass) : Bool :=
  if c = d then true
  else
    match c.pyBase with
    | none => false
    | some b =>
      if b = d then true
      else
        match b.pyBase with
        | none => false
        | some b2 => decide (b2 = d)

/-- A synthesized Python exception value: its runtime class, the message it
was constructed with (if any), and the note attached via `add_note`. -/
structure PyExc where
  cls : ExcClass
  msg : Option String := none
  note : Option String := none
  deriving DecidableEq

/-- Python `isinstance` for the exception values built here. -/
def PyExc.isInstanceOf (e : PyExc) (c : ExcClass) : Bool :=
  e.cls.isSubclassOf c

/-- Shallow embedding of `JolokiaClient._build_exception`: the class name is
the last dot-segment of a truthy `error_type` (else `"Throwable"`), the
message is `": ".join(error.split(": ")[1:])` of a truthy `error` and is
passed to the constructor only when itself truthy, and a truthy
`stacktrace` becomes the attached note. -/
def buildException (response : JolokiaResponse) : PyExc :=
  let excName : String :=
    match response.error_type with
    | some et => if et = "" then "Throwable" else lastDotSegment et
    | none => "Throwable"
  let excMsg : Option String :=
    match response.error with
    | some e =>
      if e = "" then none
      else
        let m := dropColonPrefix e
        if m = "" then none else some m
    | none => none
  let excNote : Option String :=
    match response.stacktrace with
    | some st => if st = "" then none else some st
    | none => none
  { cls := ExcClass.dynamic excName, msg := excMsg, note := excNote }

/-- Pydantic `request.json(exclude_none=True)`: the serialized object holds
the declared fields in declaration order, skipping exactly those whose
value is `None`. -/
def serializeRequest (r : JolokiaRequest) : List (String × Json) :=
  [("type", Json.str r.type.toWire)]
  ++ (match r.mbean with | some s => [("mbean", Json.str s)] | none => [])
  ++ (match r.«attribute» with | some s => [("attribute", Json.str s)] | none => [])
  ++ (match r.path with | some s => [("path", Json.str s)] | none => [])
  ++ (match r.value with | some v => [("value", v)] | none => [])
  ++ (match r.operation_name with | some s => [("operation_name", Json.str s)] | none => [])
  ++ (match r.arguments with | some vs => [("arguments", Json.arr vs)] | none => [])

/-- The wire payload of `fetch_json`: the JSON array holding each operation
serialized in input order. -/
def batchPayload (ops : List JolokiaRequest) : List (List (String × Json)) :=
  ops.map serializeRequest

/-- Validate an optional string field: absent or JSON null becomes `none`, a
string becomes `some`, anything else is a validation error. -/
def getOptStr (k : String) (kvs : List (String × Json)) : Except String (Option String) :=
  match lookupJ k kvs with
  | none => Except.ok none
  | some Json.null => Except.ok none
  | some (Json.str s) => Except.ok (some s)
  | some _ => Except.error ("ValidationError: " ++ k)

/-- Validate an optional integer field. -/
def getOptInt (k : String) (kvs : List (String × Json)) : Except String (Option Int) :=
  match lookupJ k kvs with
  | none => Except.ok none
  | some Json.null => Except.ok none
  | some (Json.num n) => Except.ok (some n)
  | some _ => Except.error ("ValidationError: " ++ k)

/-- Read an `Any | None` field: absent and JSON null both become `None`. -/
def getOptJson (k : String) (kvs : List (String × Json)) : Option Json :=
  match lookupJ k kvs with
  | none => none
  | some Json.null => none
  | some v => some v

/-- Validate a required string field. -/
def getReqStr (k : String) (kvs : List (String × Json)) : Except String String :=
  match lookupJ k kvs with
  | some (Json.str s) => Except.ok s
  | some _ => Except.error ("ValidationError: " ++ k)
  | none => Except.error ("ValidationError: missing " ++ k)

/-- Parse the `type` field of an echoed request into an operation kind. -/
def parseOperation (j : Json) : Except String Operation :=
  match j with
  | Json.str s =>
    match Operation.fromWire s with
    | some op => Except.ok op
    | none => Except.error "ValidationError: type"
  | _ => Except.error "ValidationError: type"

/-- Parse one JSON value into a `JolokiaRequest` (used for the optional
`request` echo inside a response). -/
def parseRequest (j : Json) : Except String JolokiaRequest :=
  match j with
  | Json.obj kvs => do
    let op ← (match lookupJ "type" kvs with
      | some t => parseOperation t
      | none => Except.error "ValidationError: missing type")
    let mb ← getOptStr "mbean" kvs
    let at1 ← getOptStr "attribute" kvs
    let pa ← getOptStr "path" kvs
    let opName ← getOptStr "operation_name" kvs
    let args ← (match lookupJ "arguments" kvs with
      | none => Except.ok none
      | some Json.null => Except.ok none
      | some (Json.arr vs) => Except.ok (some vs)
      | some _ => Except.error "ValidationError: arguments")
    Except.ok { type := op, mbean := mb, «attribute» := at1, path := pa,
                value := getOptJson "value" kvs, operation_name := opName,
                arguments := args }
  | _ => Except.error "ValidationError: request"

/-- Parse one entry of the `history` array. The `value` field is required
(though it may be JSON null). -/
def parseHistoryItem (j : Json) : Except String HistoricalValue :=
  match j with
  | Json.obj kvs => do
    let v ← (match lookupJ "value" kvs with
      | none => Except.error "ValidationError: missing value"
      | some Json.null => Except.ok (none : Option Json)
      | some w => Except.ok (some w))
    let ts ← getOptInt "timestamp" kvs
    Except.ok { value := v, timestamp := ts }
  | _ => Except.error "ValidationError: history"

/-- Parse every entry of the `history` array in order. -/
def parseHistoryList : List Json → Except String (List HistoricalValue)
  | [] => Except.ok []
  | h :: rest => do
    let x ← parseHistoryItem h
    let xs ← parseHistoryList rest
    Except.ok (x :: xs)

/-- Validation of the required `status` field of a response: it must be
present and an integer. -/
def parseStatusField (kvs : List (String × Json)) : Except String Int :=
  match lookupJ "status" kvs with
  | some (Json.num n) => Except.ok n
  | some _ => Except.error "MalformedResponse: status is not an integer"
  | none => Except.error "MalformedResponse: status is missing"

/-- Validate the optional `history` field: absent or null is `None`, an
array is parsed entry by entry, anything else is a validation error. -/
def parseHistoryField (kvs : List (String × Json)) :
    Except String (Option (List HistoricalValue)) :=
  match lookupJ "history" kvs with
  | none => Except.ok none
  | some Json.null => Except.ok none
  | some (Json.arr hs) =>
    match parseHistoryList hs with
    | Except.error m => Except.error m
    | Except.ok items => Except.ok (some items)
  | some _ => Except.error "ValidationError: history"

/-- Validate the optional `request` echo field. -/
def parseRequestField (kvs : List (String × Json)) :
    Except String (Option JolokiaRequest) :=
  match lookupJ "request" kvs with
  | none => Except.ok none
  | some Json.null => Except.ok none
  | some j2 =>
    match parseRequest j2 with
    | Except.error m => Except.error m
    | Except.ok r => Except.ok (some r)

/-- Shallow embedding of `JolokiaResponse(**result)`: the entry must be a
mapping, `status` must be a present integer, and the optional fields must
match their declared shapes. -/
def parseResponse (j : Json) : Except String JolokiaResponse :=
  match j with
  | Json.obj kvs =>
    match parseStatusField kvs with
    | Except.error m => Except.error m
    | Except.ok st =>
      match parseHistoryField kvs with
      | Except.error m => Except.error m
      | Except.ok hist =>
        match parseRequestField kvs with
        | Except.error m => Except.error m
        | Except.ok req =>
          match getOptInt "timestamp" kvs with
          | Except.error m => Except.error m
          | Except.ok ts =>
            match getOptStr "error_type" kvs with
            | Except.error m => Except.error m
            | Except.ok et =>
              match getOptStr "error" kvs with
              | Except.error m => Except.error m
              | Except.ok er =>
                match getOptStr "stacktrace" kvs with
                | Except.error m => Except.error m
                | Except.ok stk =>
                  Except.ok { status := st, value := getOptJson "value" kvs,
                              history := hist, request := req, timestamp := ts,
                              error_type := et, error := er, stacktrace := stk }
  | _ => Except.error "TypeError: response entry is not a mapping"

/-- Parse every reply entry in order, failing on the first bad one. -/
def parseAllResponses : List Json → Except String (List JolokiaResponse)
  | [] => Except.ok []
  | e :: rest =>
    match parseResponse e with
    | Except.error m => Except.error m
    | Except.ok r =>
      match parseAllResponses rest with
      | Except.error m => Except.error m
      | Except.ok rs => Except.ok (r :: rs)

/-- The `info` block of the version payload (`models._JolokiaVersionInfo`).
Note the `extraInfo` field reads the wire key `extra_info` (its alias). -/
structure JolokiaVersionInfo where
  product : String
  vendor : String
  version : String
  extraInfo : List (String × Json) := []

/-- The projected version payload (`models.JolokiaVersion`). -/
structure JolokiaVersion where
  protocol : String
  agent : String
  config : List (String × Json) := []
  info : JolokiaVersionInfo

/-- Parse the `info` block of a version value. -/
def parseVersionInfo (j : Json) : Except String JolokiaVersionInfo :=
  match j with
  | Json.obj kvs => do
    let pr ← getReqStr "product" kvs
    let ve ← getReqStr "vendor" kvs
    let vr ← getReqStr "version" kvs
    let extra ← (match lookupJ "extra_info" kvs with
      | none => Except.ok []
      | some (Json.obj m) => Except.ok m
      | some _ => Except.error "ValidationError: extra_info")
    Except.ok { product := pr, vendor := ve, version := vr, extraInfo := extra }
  | _ => Except.error "ValidationError: info"

/-- Shallow embedding of `JolokiaVersion(**response.value)`: the response
value must be a mapping with required `protocol`, `agent` and `info`
fields; a missing value (Python `None`) is a `TypeError`. -/
def parseVersion (v : Option Json) : Except String JolokiaVersion :=
  match v with
  | some (Json.obj kvs) => do
    let pr ← getReqStr "protocol" kvs
    let ag ← getReqStr "agent" kvs
    let cfg ← (match lookupJ "config" kvs with
      | none => Except.ok []
      | some (Json.obj m) => Except.ok m
      | some _ => Except.error "ValidationError: config")
    let infoJ ← (match lookupJ "info" kvs with
      | some j2 => Except.ok j2
      | none => Except.error "ValidationError: missing info")
    let info ← parseVersionInfo infoJ
    Except.ok { protocol := pr, agent := ag, config := cfg, info := info }
  | _ => Except.error "TypeError: version value is not a mapping"

/-- A failure of the transport collaborator (network or HTTP layer). -/
structure TransportError where
  message : String
  deriving DecidableEq

/-- The shape check `if not isinstance(json_obj, Sequence): json_obj = [json_obj]`
of `JolokiaClient.request`. A JSON array is already a Python `Sequence` and
is kept; a bare object (dict) is not a `Sequence` and is wrapped. A JSON
string is also a Python `Sequence` and is therefore iterated per character,
yielding one-character strings. Everything else is wrapped. -/
def normalize (j : Json) : List Json :=
  match j with
  | Json.arr xs => xs
  | Json.str s => s.data.map (fun c => Json.str (String.mk [c]))
  | other => [other]

/-- One observable step of iterating the `request` async generator: a
yielded response, a parse failure raised mid-iteration, a transport failure
raised before any yield, or the terminal `ExceptionGroup`. -/
inductive Event where
  | resp (r : JolokiaResponse)
  | parseFail (message : String)
  | transportFail (e : TransportError)
  | agg (label : String) (excs : List PyExc)

/-- Accumulated outcome of the generator loop over the reply entries:
the events it produces in order, the exceptions collected for entries with
`status >= 400`, and whether the loop ran to completion (a parse failure
aborts it, so the terminal raise is never reached). -/
structure RunState where
  events : List Event
  excs : List PyExc
  completed : Bool

/-- The loop body of `JolokiaClient.request`: parse each entry in order,
collect a synthesized exception for each entry with `status >= 400`, and
yield every parsed response regardless of status. -/
def processEntries : List Json → RunState
  | [] => { events := [], excs := [], completed := true }
  | e :: rest =>
    match parseResponse e with
    | Except.error m => { events := [Event.parseFail m], excs := [], completed := false }
    | Except.ok r =>
      let s := processEntries rest
      { events := Event.resp r :: s.events,
        excs := (if 400 ≤ r.status then [buildException r] else []) ++ s.excs,
        completed := s.completed }

/-- Shallow embedding of `JolokiaClient.request` as the full trace of events
a consumer draining the generator observes, given the outcome of
`fetch_json`. The terminal `ExceptionGroup("JolokiaException", ...)` is
raised only when the client was built with `raise_exceptions=True`, the
loop completed, and the collected exception list is non-empty. -/
def requestTrace (raiseExceptions : Bool) (fetched : Except TransportError Json) : List Event :=
  match fetched with
  | Except.error e => [Event.transportFail e]
  | Except.ok body =>
    (processEntries (normalize body)).events ++
      (if raiseExceptions && (processEntries (normalize body)).completed
          && !(processEntries (normalize body)).excs.isEmpty then
        [Event.agg "JolokiaException" (processEntries (normalize body)).excs]
      else [])

/-- The responses delivered to the consumer, in order of production. -/
def respList (events : List Event) : List JolokiaResponse :=
  events.filterMap (fun ev =>
    match ev with
    | Event.resp r => some r
    | _ => none)

/-- The single-operation batch sent by the `version` property. -/
def versionOps : List JolokiaRequest := [{ type := Operation.version }]

/-- Everything the `version` property can raise. -/
inductive VersionError where
  | transport (e : TransportError)
  | validation (message : String)
  | stopAsyncIter
  | aggregate (label : String) (excs : List PyExc)
  | remote (exc : PyExc)

/-- Shallow embedding of the `version` property: run the generator for a
single step (`__anext__`), which surfaces exactly the first event of the
trace; on a status-200 response project the value into `JolokiaVersion`,
otherwise raise the exception built from that sole response. -/
def version (raiseExceptions : Bool) (fetched : Except TransportError Json) :
    Except VersionError JolokiaVersion :=
  match (requestTrace raiseExceptions fetched).head? with
  | none => Except.error VersionError.stopAsyncIter
  | some (Event.transportFail e) => Except.error (VersionError.transport e)
  | some (Event.parseFail m) => Except.error (VersionError.validation m)
  | some (Event.agg lbl excs) => Except.error (VersionError.aggregate lbl excs)
  | some (Event.resp r) =>
    if r.status = 200 then
      match parseVersion r.value with
      | Except.ok v => Except.ok v
      | Except.error m => Except.error (VersionError.validation m)
    else
      Except.error (VersionError.remote (buildException r))

/-- Character test used to phrase "substring after the last dot". -/
def notDot (c : Char) : Bool := c != '.'

/-- Specification-side reading of the synthesized exception name: the
suffix of the string that follows its last dot. -/
def afterLastDot (s : String) : String :=
  String.mk ((s.data.reverse.takeWhile notDot).reverse)

/-- Modelled from the amended claim wording: the synthesized name is
`"Throwable"` when `errorType` is absent or empty, else the substring of
`errorType` after its last dot. -/
def specExcName (errorType : Option String) : String :=
  match errorType with
  | none => "Throwable"
  | some et => if et = "" then "Throwable" else afterLastDot et

/-- Modelled from the amended claim wording: the message is the remainder
of `error` after the first occurrence of `": "` when that separator occurs
and the remainder is non-empty; otherwise (separator absent, remainder
empty, or `error` absent or empty) the failure carries no message. -/
def specExcMsg (error : Option String) : Option String :=
  match error with
  | none => none
  | some e =>
    match tailCS e.data with
    | none => none
    | some rem => if rem = [] then none else some (String.mk rem)

/-- Whether a JSON value is an integer. -/
def Json.isInt : Json → Bool
  | Json.num _ => true
  | _ => false

/-- Specification-side list of the wire keys a request serialization must
contain: exactly the fields whose value is present. -/
def presentKeys (r : JolokiaRequest) : List String :=
  ["type"]
  ++ (if r.mbean.isSome then ["mbean"] else [])
  ++ (if r.«attribute».isSome then ["attribute"] else [])
  ++ (if r.path.isSome then ["path"] else [])
  ++ (if r.value.isSome then ["value"] else [])
  ++ (if r.operation_name.isSome then ["operation_name"] else [])
  ++ (if r.arguments.isSome then ["arguments"] else [])

/-- A WRITE request with the falsy-but-present value 0. -/
def writeZeroRequest : JolokiaRequest :=
  { type := Operation.write, value := some (Json.num 0) }

/-- A failed response whose `error` contains no `": "` separator. -/
def respBadMsg : JolokiaResponse := { status := 500, error := some "bad" }

/-- The failed response of the specification's 404 `version()` example. -/
def respIae404 : JolokiaResponse :=
  { status := 404,
    error_type := some "java.lang.IllegalArgumentException",
    error := some "java.lang.IllegalArgumentException: no such endpoint" }

/-- The status-200 version reply of the specification's example. -/
def reply200 : Json :=
  Json.obj [("status", Json.num 200),
    ("value", Json.obj [("protocol", Json.str "7.2"), ("agent", Json.str "1.6.0"),
      ("info", Json.obj [("product", Json.str "jolokia"), ("vendor", Json.str "x"),
        ("version", Json.str "1")])])]

/-- The response parsed from `reply200`. -/
def resp200 : JolokiaResponse :=
  { status := 200,
    value := some (Json.obj [("protocol", Json.str "7.2"), ("agent", Json.str "1.6.0"),
      ("info", Json.obj [("product", Json.str "jolokia"), ("vendor", Json.str "x"),
        ("version", Json.str "1")])]) }

/-- The `JolokiaVersion` projected from `reply200`. -/
def jv72 : JolokiaVersion :=
  { protocol := "7.2", agent := "1.6.0",
    info := { product := "jolokia", vendor := "x", version := "1" } }

/-- The 404 version reply of the specification's example. -/
def reply404 : Json :=
  Json.obj [("status", Json.num 404),
    ("error_type", Json.str "java.lang.IllegalArgumentException"),
    ("error", Json.str "java.lang.IllegalArgumentException: no such endpoint")]

/-- The failure synthesized from `reply404`. -/
def illegalArgExc : PyExc :=
  { cls := ExcClass.dynamic "IllegalArgumentException", msg := some "no such endpoint" }

/-- A two-entry reply body: one failed entry, one successful entry. -/
def entriesTwo : List Json :=
  [Json.obj [("status", Json.num 500)], Json.obj [("status", Json.num 200)]]

/-- The responses parsed from `entriesTwo`. -/
def respsTwo : List JolokiaResponse := [{ status := 500 }, { status := 200 }]

/-- A two-operation batch matching `entriesTwo`. -/
def opsTwo : List JolokiaRequest :=
  [{ type := Operation.read }, { type := Operation.read }]

/-- A single failed reply entry. -/
def fail500Entry : Json := Json.obj [("status", Json.num 500)]

/-- The failure synthesized from `fail500Entry`. -/
def throwableExc : PyExc := { cls := ExcClass.dynamic "Throwable" }

/-- A reply object with only a status field. -/
def statusOnly200 : List (String × Json) := [("status", Json.num 200)]

/-! Lemmas about the `": "` split and join. -/

theorem splitCS_ne_nil (l : List Char) : splitCS l ≠ [] := by
  induction l using splitCS.induct with
  | case1 => simp [splitCS]
  | case2 c => simp [splitCS]
  | case3 c1 c2 rest h ih => simp [splitCS, h.1, h.2]
  | case4 c1 c2 rest h hnil ih => exact absurd hnil ih
  | case5 c1 c2 rest h t ts hts ih => simp [splitCS, if_neg h, hts]

theorem joinCS_cons_cons (c : Char) (t : List Char) (ts : List (List Char)) :
    joinCS ((c :: t) :: ts) = c :: joinCS (t :: ts) := by
  cases ts <;> simp [joinCS]

theorem joinCS_splitCS (l : List Char) : joinCS (splitCS l) = l := by
  induction l using splitCS.induct with
  | case1 => rfl
  | case2 c => rfl
  | case3 c1 c2 rest h ih =>
    obtain ⟨h1, h2⟩ := h
    subst h1
    subst h2
    simp only [splitCS, if_pos (And.intro rfl rfl)]
    cases hs : splitCS rest with
    | nil => exact absurd hs (splitCS_ne_nil rest)
    | cons t ts =>
      rw [hs] at ih
      simp [joinCS, ih]
  | case4 c1 c2 rest h hnil ih => exact absurd hnil (splitCS_ne_nil _)
  | case5 c1 c2 rest h t ts hts ih =>
    simp only [splitCS, if_neg h, hts]
    rw [joinCS_cons_cons]
    rw [hts] at ih
    rw [ih]

theorem splitCS_of_tailCS_none (l : List Char) (h : tailCS l = none) : splitCS l = [l] := by
  induction l using splitCS.induct with
  | case1 => rfl
  | case2 c => rfl
  | case3 c1 c2 rest hc ih => simp [tailCS, hc.1, hc.2] at h
  | case4 c1 c2 rest hc hnil ih => exact absurd hnil (splitCS_ne_nil _)
  | case5 c1 c2 rest hc t ts hts ih =>
    have h2 : tailCS (c2 :: rest) = none := by
      simp only [tailCS, if_neg hc] at h
      exact h
    have h3 := ih h2
    rw [hts] at h3
    injection h3 with h4 h5
    subst h4
    subst h5
    simp [splitCS, if_neg hc, hts]

theorem splitCS_drop_of_tailCS_some (l r : List Char) (h : tailCS l = some r) :
    (splitCS l).drop 1 = splitCS r := by
  induction l using splitCS.induct with
  | case1 => simp [tailCS] at h
  | case2 c => simp [tailCS] at h
  | case3 c1 c2 rest hc ih =>
    have hr : rest = r := by
      simpa [tailCS, hc.1, hc.2] using h
    subst hr
    simp [splitCS, hc.1, hc.2]
  | case4 c1 c2 rest hc hnil ih => exact absurd hnil (splitCS_ne_nil _)
  | case5 c1 c2 rest hc t ts hts ih =>
    have h2 : tailCS (c2 :: rest) = some r := by
      simp only [tailCS, if_neg hc] at h
      exact h
    have h3 := ih h2
    rw [hts] at h3
    simp only [List.drop_succ_cons, List.drop_zero] at h3
    simp [splitCS, if_neg hc, hts, h3]

theorem dropColonPrefix_data (s : String) :
    (dropColonPrefix s).data =
      (match tailCS s.data with
       | none => []
       | some r => r) := by
  cases h : tailCS s.data with
  | none =>
    unfold dropColonPrefix
    rw [splitCS_of_tailCS_none s.data h]
    rfl
  | some r =>
    unfold dropColonPrefix
    rw [splitCS_drop_of_tailCS_some s.data r h]
    exact joinCS_splitCS r

/-! Lemmas about the `"."` split. -/

theorem splitDot_ne_nil (l : List Char) : splitDot l ≠ [] := by
  induction l using splitDot.induct with
  | case1 => simp [splitDot]
  | case2 rest ih => simp [splitDot]
  | case3 c rest hc hnil ih => exact absurd hnil ih
  | case4 c rest hc t ts hts ih => simp [splitDot, if_neg hc, hts]

theorem eq_of_splitDot_singleton (l : List Char) :
    ∀ t, splitDot l = [t] → l = t := by
  induction l using splitDot.induct with
  | case1 =>
    intro t h
    simp [splitDot] at h
    exact h.symm
  | case2 rest ih =>
    intro t h
    simp only [splitDot, if_pos rfl] at h
    injection h with h1 h2
    exact absurd h2 (splitDot_ne_nil rest)
  | case3 c rest hc hnil ih => exact absurd hnil (splitDot_ne_nil rest)
  | case4 c rest hc t ts hts ih =>
    intro u h
    simp only [splitDot, if_neg hc, hts] at h
    injection h with h1 h2
    subst h2
    have hrest : rest = t := ih t hts
    subst hrest
    exact h1

theorem splitDot_of_not_mem (l : List Char) (h : '.' ∉ l) : splitDot l = [l] := by
  induction l with
  | nil => rfl
  | cons c rest ih =>
    have hc : ¬c = '.' := by
      intro e
      exact h (e ▸ List.mem_cons_self c rest)
    have h2 : '.' ∉ rest := fun m => h (List.mem_cons_of_mem _ m)
    simp only [splitDot, if_neg hc, ih h2]

theorem dot_mem_of_splitDot_length (l : List Char) (h : 2 ≤ (splitDot l).length) :
    '.' ∈ l := by
  by_contra hn
  rw [splitDot_of_not_mem l hn] at h
  simp at h

theorem splitDot_length_of_dot_mem (l : List Char) (h : '.' ∈ l) :
    2 ≤ (splitDot l).length := by
  induction l with
  | nil => cases h
  | cons c rest ih =>
    by_cases hc : c = '.'
    · subst hc
      simp only [splitDot, if_pos rfl]
      cases hs : splitDot rest with
      | nil => exact absurd hs (splitDot_ne_nil rest)
      | cons t ts => simp
    · have h2 : '.' ∈ rest := by
        rcases List.mem_cons.mp h with e | m
        · exact absurd e.symm hc
        · exact m
      have h3 := ih h2
      cases hs : splitDot rest with
      | nil => exact absurd hs (splitDot_ne_nil rest)
      | cons t ts =>
        rw [hs] at h3
        simp only [splitDot, if_neg hc, hs]
        simpa using h3

theorem takeWhile_append_neg (p : Char → Bool) (c : Char) (hc : p c = false)
    (l1 l2 : List Char) : (l1 ++ c :: l2).takeWhile p = l1.takeWhile p := by
  induction l1 with
  | nil => simp [List.takeWhile_cons, hc]
  | cons a rest ih =>
    by_cases hp : p a <;> simp [List.takeWhile_cons, hp, ih]

theorem takeWhile_append_of_all (p : Char → Bool) (l1 l2 : List Char)
    (h : l1.takeWhile p = l1) : (l1 ++ l2).takeWhile p = l1 ++ l2.takeWhile p := by
  induction l1 with
  | nil => simp
  | cons c rest ih =>
    by_cases hp : p c
    · simp only [List.takeWhile_cons, hp, if_true, List.cons.injEq, true_and] at h
      simp [List.takeWhile_cons, hp, ih h]
    · simp [List.takeWhile_cons, hp] at h

theorem takeWhile_append_of_exists_neg (p : Char → Bool) (l1 l2 : List Char)
    (h : ∃ x ∈ l1, p x = false) : (l1 ++ l2).takeWhile p = l1.takeWhile p := by
  induction l1 with
  | nil =>
    rcases h with ⟨x, hx, _⟩
    cases hx
  | cons c rest ih =>
    by_cases hp : p c
    · rcases h with ⟨x, hx, hpx⟩
      rcases List.mem_cons.mp hx with rfl | hx2
      · rw [hp] at hpx
        cases hpx
      · simp only [List.cons_append, List.takeWhile_cons, hp, if_true]
        rw [ih ⟨x, hx2, hpx⟩]
    · simp [List.takeWhile_cons, hp]

theorem takeWhile_notDot_of_not_mem (l : List Char) (h : '.' ∉ l) :
    l.takeWhile notDot = l := by
  induction l with
  | nil => rfl
  | cons c rest ih =>
    have hc : notDot c = true := by
      simp only [notDot, bne_iff_ne, ne_eq, decide_eq_true_eq]
      intro e
      exact h (e ▸ List.mem_cons_self c rest)
    have h2 : '.' ∉ rest := fun m => h (List.mem_cons_of_mem _ m)
    simp [List.takeWhile_cons, hc, ih h2]

theorem splitDot_getLastD (l : List Char) :
    (splitDot l).getLastD [] = (l.reverse.takeWhile notDot).reverse := by
  induction l using splitDot.induct with
  | case1 => rfl
  | case2 rest ih =>
    have hdot : notDot '.' = false := by simp [notDot]
    simp only [splitDot, if_pos rfl, List.getLastD_cons, List.reverse_cons]
    rw [takeWhile_append_neg notDot '.' hdot rest.reverse []]
    cases hs : splitDot rest with
    | nil => exact absurd hs (splitDot_ne_nil rest)
    | cons t ts =>
      rw [hs] at ih
      cases ts with
      | nil => simpa using ih
      | cons t2 ts2 =>
        rw [← ih]
        simp [List.getLastD_cons]
  | case3 c rest hc hnil ih => exact absurd hnil (splitDot_ne_nil rest)
  | case4 c rest hc t ts hts ih =>
    rw [hts] at ih
    have hcd : notDot c = true := by
      simp only [notDot, bne_iff_ne, ne_eq, decide_eq_true_eq]
      exact hc
    simp only [splitDot, if_neg hc, hts, List.reverse_cons]
    cases ts with
    | nil =>
      have hrest : rest = t := eq_of_splitDot_singleton rest t hts
      have hnomem : '.' ∉ rest := by
        intro hm
        have := splitDot_length_of_dot_mem rest hm
        rw [hts] at this
        simp at this
      have hall : rest.reverse.takeWhile notDot = rest.reverse := by
        apply takeWhile_notDot_of_not_mem
        simpa using hnomem
      rw [takeWhile_append_of_all notDot rest.reverse [c] hall]
      simp only [List.getLastD_cons, List.getLastD_nil]
      simp [List.takeWhile_cons, hcd, hrest]
    | cons t2 ts2 =>
      have hmem : '.' ∈ rest := by
        apply dot_mem_of_splitDot_length
        rw [hts]
        simp
      have hstep : (rest.reverse ++ [c]).takeWhile notDot = rest.reverse.takeWhile notDot := by
        apply takeWhile_append_of_exists_neg
        refine ⟨'.', by simpa using hmem, by simp [notDot]⟩
      rw [hstep, ← ih]
      simp only [List.getLastD_cons]

theorem lastDotSegment_eq_afterLastDot (s : String) :
    lastDotSegment s = afterLastDot s := by
  unfold lastDotSegment afterLastDot
  rw [splitDot_getLastD]

/-! Lemmas about the batch engine trace. -/

theorem respList_map_resp (rs : List JolokiaResponse) :
    respList (rs.map Event.resp) = rs := by
  induction rs with
  | nil => rfl
  | cons r rest ih => simp [respList] at ih ⊢; exact ih

theorem respList_append (l1 l2 : List Event) :
    respList (l1 ++ l2) = respList l1 ++ respList l2 := by
  simp [respList]

theorem processEntries_of_parseAll (entries : List Json) (rs : List JolokiaResponse)
    (h : parseAllResponses entries = Except.ok rs) :
    processEntries entries =
      { events := rs.map Event.resp,
        excs := (rs.filter (fun r => decide (400 ≤ r.status))).map buildException,
        completed := true } := by
  induction entries generalizing rs with
  | nil =>
    simp only [parseAllResponses, Except.ok.injEq] at h
    subst h
    rfl
  | cons e rest ih =>
    simp only [parseAllResponses] at h
    cases hp : parseResponse e with
    | error m => rw [hp] at h; cases h
    | ok r =>
      rw [hp] at h
      cases hrest : parseAllResponses rest with
      | error m => rw [hrest] at h; cases h
      | ok rs2 =>
        rw [hrest] at h
        simp only [Except.ok.injEq] at h
        subst h
        simp only [processEntries, hp, ih rs2 hrest]
        by_cases hst : 400 ≤ r.status <;>
          simp [hst, List.filter_cons]

theorem parseAll_length (entries : List Json) (rs : List JolokiaResponse)
    (h : parseAllResponses entries = Except.ok rs) : rs.length = entries.length := by
  induction entries generalizing rs with
  | nil =>
    simp only [parseAllResponses, Except.ok.injEq] at h
    subst h
    rfl
  | cons e rest ih =>
    simp only [parseAllResponses] at h
    cases hp : parseResponse e with
    | error m => rw [hp] at h; cases h
    | ok r =>
      rw [hp] at h
      cases hrest : parseAllResponses rest with
      | error m => rw [hrest] at h; cases h
      | ok rs2 =>
        rw [hrest] at h
        simp only [Except.ok.injEq] at h
        subst h
        simp [ih rs2 hrest]

theorem parseAll_pointwise (entries : List Json) (rs : List JolokiaResponse)
    (h : parseAllResponses entries = Except.ok rs) :
    ∀ (i : Nat) (e : Json), entries[i]? = some e →
      ∃ r, rs[i]? = some r ∧ parseResponse e = Except.ok r := by
  induction entries generalizing rs with
  | nil =>
    intro i e he
    simp at he
  | cons e0 rest ih =>
    simp only [parseAllResponses] at h
    cases hp : parseResponse e0 with
    | error m => rw [hp] at h; cases h
    | ok r =>
      rw [hp] at h
      cases hrest : parseAllResponses rest with
      | error m => rw [hrest] at h; cases h
      | ok rs2 =>
        rw [hrest] at h
        simp only [Except.ok.injEq] at h
        subst h
        intro i e he
        cases i with
        | zero =>
          simp only [List.getElem?_cons_zero, Option.some.injEq] at he
          subst he
          exact ⟨r, by simp, hp⟩
        | succ j =>
          simp only [List.getElem?_cons_succ] at he
          obtain ⟨r2, hr2, hpr⟩ := ih rs2 hrest j e he
          exact ⟨r2, by simpa using hr2, hpr⟩

theorem agg_not_mem_processEntries (entries : List Json) (lbl : String)
    (excs : List PyExc) : Event.agg lbl excs ∉ (processEntries entries).events := by
  induction entries with
  | nil => simp [processEntries]
  | cons e rest ih =>
    cases hp : parseResponse e with
    | error m => simp [processEntries, hp]
    | ok r =>
      simp only [processEntries, hp, List.mem_cons]
      rintro (h | h)
      · cases h
      · exact ih h

theorem mem_processEntries_excs (entries : List Json) (exc : PyExc)
    (h : exc ∈ (processEntries entries).excs) : ∃ r, exc = buildException r := by
  induction entries with
  | nil => simp [processEntries] at h
  | cons e rest ih =>
    cases hp : parseResponse e with
    | error m => simp [processEntries, hp] at h
    | ok r =>
      simp only [processEntries, hp, List.mem_append] at h
      rcases h with h | h
      · by_cases hst : 400 ≤ r.status
        · simp only [if_pos hst, List.mem_singleton] at h
          exact ⟨r, h⟩
        · simp [if_neg hst] at h
      · exact ih h

theorem processEntries_events_nil (entries : List Json)
    (h : (processEntries entries).events = []) : (processEntries entries).excs = [] := by
  cases entries with
  | nil => rfl
  | cons e rest =>
    cases hp : parseResponse e <;> simp [processEntries, hp] at h

theorem requestTrace_ok_head (raiseExceptions : Bool) (body : Json) :
    (requestTrace raiseExceptions (Except.ok body)).head? =
      (processEntries (normalize body)).events.head? := by
  unfold requestTrace
  cases he : (processEntries (normalize body)).events with
  | nil =>
    have := processEntries_events_nil (normalize body) he
    simp [he, this]
  | cons ev evs => simp [he]

theorem respList_ite_agg (c : Prop) [Decidable c] (lbl : String) (excs : List PyExc) :
    respList (if c then [Event.agg lbl excs] else []) = [] := by
  split <;> rfl

theorem requestTrace_ok_respList (raiseExceptions : Bool) (body : Json) :
    respList (requestTrace raiseExceptions (Except.ok body)) =
      respList (processEntries (normalize body)).events := by
  unfold requestTrace
  rw [respList_append, respList_ite_agg, List.append_nil]

theorem parseResponse_error_of_statusField (kvs : List (String × Json)) (m : String)
    (h : parseStatusField kvs = Except.error m) :
    parseResponse (Json.obj kvs) = Except.error m := by
  simp only [parseResponse, h]

theorem parseStatusField_of_lookup_none (kvs : List (String × Json))
    (h : lookupJ "status" kvs = none) :
    parseStatusField kvs = Except.error "MalformedResponse: status is missing" := by
  simp [parseStatusField, h]

theorem parseStatusField_of_lookup_notInt (kvs : List (String × Json)) (v : Json)
    (h : lookupJ "status" kvs = some v) (hv : v.isInt = false) :
    parseStatusField kvs = Except.error "MalformedResponse: status is not an integer" := by
  unfold parseStatusField
  rw [h]
  cases v <;> simp_all [Json.isInt]

theorem lookup_of_parseStatusField_ok (kvs : List (String × Json)) (n : Int)
    (h : parseStatusField kvs = Except.ok n) :
    lookupJ "status" kvs = some (Json.num n) := by
  unfold parseStatusField at h
  cases hl : lookupJ "status" kvs with
  | none => rw [hl] at h; cases h
  | some v =>
    rw [hl] at h
    cases v <;> (try cases h)
    rfl

theorem parseStatusField_ok_of_parseResponse (kvs : List (String × Json))
    (r : JolokiaResponse) (h : parseResponse (Json.obj kvs) = Except.ok r) :
    parseStatusField kvs = Except.ok r.status := by
  cases hst : parseStatusField kvs with
  | error m =>
    rw [parseResponse_error_of_statusField kvs m hst] at h
    cases h
  | ok n =>
    simp only [parseResponse, hst] at h
    repeat' split at h
    all_goals cases h
    rfl

/-! Claim theorems. -/

/-- C1: for every non-empty ordered sequence of n requests whose reply body
is an n-element JSON array all of whose entries parse, `request` yields
exactly n responses, the i-th being the one parsed from the i-th reply
entry, with no reordering. -/
theorem C1_order_preservation (raiseExceptions : Bool) (ops : List JolokiaRequest)
    (entries : List Json) (rs : List JolokiaResponse)
    (_hne : ops ≠ []) (hlen : entries.length = ops.length)
    (hparse : parseAllResponses entries = Except.ok rs) :
    respList (requestTrace raiseExceptions (Except.ok (Json.arr entries))) = rs
    ∧ rs.length = ops.length
    ∧ ∀ (i : Nat) (e : Json), entries[i]? = some e →
        ∃ r, rs[i]? = some r ∧ parseResponse e = Except.ok r := by
  refine ⟨?_, ?_, parseAll_pointwise entries rs hparse⟩
  · rw [requestTrace_ok_respList]
    have hnorm : normalize (Json.arr entries) = entries := rfl
    rw [hnorm, processEntries_of_parseAll entries rs hparse]
    exact respList_map_resp rs
  · rw [parseAll_length entries rs hparse, hlen]

/-- C1 witness at a concrete two-entry batch. -/
theorem C1_order_preservation_witness :
    respList (requestTrace true (Except.ok (Json.arr entriesTwo))) = respsTwo
    ∧ respsTwo.length = opsTwo.length
    ∧ ∀ (i : Nat) (e : Json), entriesTwo[i]? = some e →
        ∃ r, respsTwo[i]? = some r ∧ parseResponse e = Except.ok r :=
  C1_order_preservation true opsTwo entriesTwo respsTwo
    (by simp [opsTwo]) rfl rfl

/-- C2: with `raise_exceptions=True`, over a fully parsed batch with k > 0
failed entries, the trace is the n responses in order followed by a single
`ExceptionGroup` carrying exactly the k synthesized failures, one per
failed entry in order; with k = 0 or `raise_exceptions=False` no group is
raised. -/
theorem C2_aggregate_failures (entries : List Json) (rs : List JolokiaResponse)
    (hparse : parseAllResponses entries = Except.ok rs) :
    (rs.filter (fun r => decide (400 ≤ r.status)) ≠ [] →
      requestTrace true (Except.ok (Json.arr entries)) =
        rs.map Event.resp ++
          [Event.agg "JolokiaException"
            ((rs.filter (fun r => decide (400 ≤ r.status))).map buildException)]
      ∧ ((rs.filter (fun r => decide (400 ≤ r.status))).map buildException).length =
          (rs.filter (fun r => decide (400 ≤ r.status))).length)
    ∧ (rs.filter (fun r => decide (400 ≤ r.status)) = [] →
      requestTrace true (Except.ok (Json.arr entries)) = rs.map Event.resp)
    ∧ requestTrace false (Except.ok (Json.arr entries)) = rs.map Event.resp := by
  have hpe := processEntries_of_parseAll entries rs hparse
  have hnorm : normalize (Json.arr entries) = entries := rfl
  refine ⟨?_, ?_, ?_⟩
  · intro hk
    refine ⟨?_, by simp⟩
    simp only [requestTrace]
    rw [hnorm, hpe]
    cases hfe : rs.filter (fun r => decide (400 ≤ r.status)) with
    | nil => exact absurd hfe hk
    | cons f fs => simp [hfe]
  · intro hk
    simp only [requestTrace]
    rw [hnorm, hpe]
    simp [hk]
  · simp only [requestTrace]
    rw [hnorm, hpe]
    simp

/-- C2 witness at a concrete batch with one failed of two entries. -/
theorem C2_aggregate_failures_witness :
    requestTrace true (Except.ok (Json.arr entriesTwo)) =
      respsTwo.map Event.resp ++
        [Event.agg "JolokiaException"
          ((respsTwo.filter (fun r => decide (400 ≤ r.status))).map buildException)]
    ∧ ((respsTwo.filter (fun r => decide (400 ≤ r.status))).map buildException).length =
        (respsTwo.filter (fun r => decide (400 ≤ r.status))).length :=
  (C2_aggregate_failures entriesTwo respsTwo rfl).1
    (by exact List.cons_ne_nil _ _)

/-- C4: a reply that is a bare JSON object and the same object wrapped in a
one-element array produce identical traces, and a single response when the
object parses. -/
theorem C4_bare_object_normalization (raiseExceptions : Bool)
    (kvs : List (String × Json)) :
    requestTrace raiseExceptions (Except.ok (Json.obj kvs)) =
      requestTrace raiseExceptions (Except.ok (Json.arr [Json.obj kvs]))
    ∧ ∀ r, parseResponse (Json.obj kvs) = Except.ok r →
        respList (requestTrace raiseExceptions (Except.ok (Json.obj kvs))) = [r] := by
  constructor
  · rfl
  · intro r hr
    rw [requestTrace_ok_respList]
    have hnorm : normalize (Json.obj kvs) = [Json.obj kvs] := rfl
    rw [hnorm]
    simp [processEntries, hr, respList]

/-- C4 witness at a concrete status-only object. -/
theorem C4_bare_object_normalization_witness :
    respList (requestTrace false (Except.ok (Json.obj statusOnly200))) =
      [{ status := 200 }] :=
  (C4_bare_object_normalization false statusOnly200).2 { status := 200 } rfl

/-- C7: parsing a reply object fails with a MalformedResponse error
whenever `status` is missing or not an integer; a successful parse carries
exactly the integer bound to `status`, and an integer `status` always
passes the status validation. -/
theorem C7_status_validation (kvs : List (String × Json)) :
    (lookupJ "status" kvs = none →
      parseResponse (Json.obj kvs) =
        Except.error "MalformedResponse: status is missing")
    ∧ (∀ v, lookupJ "status" kvs = some v → v.isInt = false →
      parseResponse (Json.obj kvs) =
        Except.error "MalformedResponse: status is not an integer")
    ∧ (∀ r, parseResponse (Json.obj kvs) = Except.ok r →
      lookupJ "status" kvs = some (Json.num r.status))
    ∧ (∀ n, lookupJ "status" kvs = some (Json.num n) →
      parseStatusField kvs = Except.ok n) := by
  refine ⟨?_, ?_, ?_, ?_⟩
  · intro h
    exact parseResponse_error_of_statusField kvs _
      (parseStatusField_of_lookup_none kvs h)
  · intro v hv hvi
    exact parseResponse_error_of_statusField kvs _
      (parseStatusField_of_lookup_notInt kvs v hv hvi)
  · intro r hr
    exact lookup_of_parseStatusField_ok kvs r.status
      (parseStatusField_ok_of_parseResponse kvs r hr)
  · intro n hn
    unfold parseStatusField
    rw [hn]

/-- C7 witness: a string-valued status is rejected. -/
theorem C7_status_validation_witness :
    parseResponse (Json.obj [("status", Json.str "oops")]) =
      Except.error "MalformedResponse: status is not an integer" :=
  (C7_status_validation [("status", Json.str "oops")]).2.1 (Json.str "oops") rfl rfl

/-- C9: a transport failure aborts the whole batch call before any response
is produced. -/
theorem C9_transport_failure_atomic (raiseExceptions : Bool) (e : TransportError) :
    requestTrace raiseExceptions (Except.error e) = [Event.transportFail e]
    ∧ respList (requestTrace raiseExceptions (Except.error e)) = [] :=
  ⟨rfl, rfl⟩

/-- C3 counterexample: on a failed response whose `error` is `"bad"` (no
`": "` separator occurs), synthesis produces no message at all, whereas the
claim asserts the whole string `"bad"` is kept as the message. -/
theorem C3_counterexample :
    (buildException respBadMsg).msg = none
    ∧ ¬(buildException respBadMsg).msg = some "bad" := by
  decide

/-- C3 amended: synthesis is total; the name is the substring of a present
non-empty `errorType` after its last dot (else `"Throwable"`), and the
message is the remainder of `error` after the first `": "` when that
separator occurs and the remainder is non-empty, with no message otherwise
(in particular when `": "` does not occur at all). -/
theorem C3_synthesis_amended (r : JolokiaResponse) :
    (buildException r).cls = ExcClass.dynamic (specExcName r.error_type)
    ∧ (buildException r).msg = specExcMsg r.error := by
  constructor
  · cases het : r.error_type with
    | none => simp [buildException, specExcName, het]
    | some et =>
      by_cases he : et = ""
      · simp [buildException, specExcName, het, he]
      · simp [buildException, specExcName, het, he, lastDotSegment_eq_afterLastDot]
  · cases her : r.error with
    | none => simp [buildException, specExcMsg, her]
    | some e =>
      by_cases he : e = ""
      · subst he
        simp [buildException, specExcMsg, her, tailCS]
      · have hd := dropColonPrefix_data e
        cases ht : tailCS e.data with
        | none =>
          rw [ht] at hd
          have hempty : dropColonPrefix e = "" := congrArg String.mk hd
          simp [buildException, specExcMsg, her, he, hempty, ht]
        | some rem =>
          rw [ht] at hd
          have hEq : dropColonPrefix e = String.mk rem := congrArg String.mk hd
          by_cases hrem : rem = []
          · subst hrem
            have hempty : dropColonPrefix e = "" := hEq
            simp [buildException, specExcMsg, her, he, hempty, ht]
          · have hne : ¬String.mk rem = "" := by
              intro h0
              exact hrem (congrArg String.data h0)
            simp [buildException, specExcMsg, her, he, ht, hrem, hEq, hne]

/-- C3 witness at the specification's 404 example response. -/
theorem C3_synthesis_amended_witness :
    (buildException respIae404).cls =
      ExcClass.dynamic (specExcName (some "java.lang.IllegalArgumentException"))
    ∧ (buildException respIae404).msg =
      specExcMsg (some "java.lang.IllegalArgumentException: no such endpoint") :=
  C3_synthesis_amended respIae404

/-- C5: serialization emits exactly the fields whose value is present, in
declaration order; absent fields are omitted entirely, and the
falsy-but-present value 0 of a WRITE request is still emitted. -/
theorem C5_omit_if_absent (r : JolokiaRequest) :
    (serializeRequest r).map Prod.fst = presentKeys r
    ∧ serializeRequest writeZeroRequest =
        [("type", Json.str "write"), ("value", Json.num 0)]
    ∧ ("value", Json.num 0) ∈ serializeRequest writeZeroRequest := by
  refine ⟨?_, rfl, ?_⟩
  · obtain ⟨ty, mb, at1, pa, va, on1, ar⟩ := r
    cases mb <;> cases at1 <;> cases pa <;> cases va <;> cases on1 <;> cases ar <;>
      simp [serializeRequest, presentKeys]
  · show ("value", Json.num 0) ∈
      [("type", Json.str "write"), ("value", Json.num 0)]
    exact List.mem_cons_of_mem _ (List.mem_cons_self _ _)

/-- C6: the `version` property sends the single VERSION operation; given
that the first generator event is a response, it projects the value into
`JolokiaVersion` exactly when the status is 200 and otherwise raises the
failure synthesized from that sole response; on the specification's 200
and 404 example replies it returns protocol 7.2 and raises
IllegalArgumentException with message "no such endpoint" respectively. -/
theorem C6_version_behaviour (raiseExceptions : Bool)
    (fetched : Except TransportError Json) (r : JolokiaResponse)
    (hr : (requestTrace raiseExceptions fetched).head? = some (Event.resp r)) :
    batchPayload versionOps = [[("type", Json.str "version")]]
    ∧ (r.status = 200 →
        version raiseExceptions fetched =
          (match parseVersion r.value with
           | Except.ok v => Except.ok v
           | Except.error m => Except.error (VersionError.validation m)))
    ∧ (r.status ≠ 200 →
        version raiseExceptions fetched =
          Except.error (VersionError.remote (buildException r)))
    ∧ version false (Except.ok reply200) = Except.ok jv72
    ∧ version false (Except.ok reply404) =
        Except.error (VersionError.remote illegalArgExc) := by
  refine ⟨rfl, ?_, ?_, rfl, rfl⟩
  · intro h200
    unfold version
    rw [hr]
    simp [h200]
  · intro hne
    unfold version
    rw [hr]
    simp [hne]

/-- C6 witness at the specification's 200 example reply. -/
theorem C6_version_behaviour_witness :
    version false (Except.ok reply200) = Except.ok jv72
    ∧ jv72.protocol = "7.2" :=
  ⟨(C6_version_behaviour false (Except.ok reply200) resp200 rfl).2.2.2.1, rfl⟩

/-- C8: the `version` property consumes a single generator step, so its
behaviour does not depend on the `raise_exceptions` configuration and the
event it observes is never the aggregate `ExceptionGroup`. -/
theorem C8_version_single_step (raiseExceptions : Bool)
    (fetched : Except TransportError Json) :
    version raiseExceptions fetched = version false fetched
    ∧ ∀ (lbl : String) (excs : List PyExc),
        (requestTrace raiseExceptions fetched).head? ≠ some (Event.agg lbl excs) := by
  cases fetched with
  | error e =>
    refine ⟨rfl, ?_⟩
    intro lbl excs h
    simp [requestTrace] at h
  | ok body =>
    refine ⟨?_, ?_⟩
    · unfold version
      rw [requestTrace_ok_head raiseExceptions body, requestTrace_ok_head false body]
    · intro lbl excs h
      rw [requestTrace_ok_head] at h
      cases he : (processEntries (normalize body)).events with
      | nil => rw [he] at h; cases h
      | cons ev evs =>
        rw [he] at h
        simp only [List.head?_cons, Option.some.injEq] at h
        refine absurd ?_ (agg_not_mem_processEntries (normalize body) lbl excs)
        rw [he, ← h]
        exact List.mem_cons_self _ _

/-- C8 witness at a concrete failed single-entry batch. -/
theorem C8_version_single_step_witness :
    version true (Except.ok (Json.arr [fail500Entry])) =
      version false (Except.ok (Json.arr [fail500Entry]))
    ∧ (requestTrace true (Except.ok (Json.arr [fail500Entry]))).head? ≠
        some (Event.agg "JolokiaException" [throwableExc]) :=
  ⟨(C8_version_single_step true (Except.ok (Json.arr [fail500Entry]))).1,
   (C8_version_single_step true (Except.ok (Json.arr [fail500Entry]))).2
     "JolokiaException" [throwableExc]⟩

/-- C10: every failure synthesized by `_build_exception` is an instance of
the base class `JavaException`, both individually and inside any aggregate
`ExceptionGroup` the trace raises. -/
theorem C10_failures_are_java_exceptions :
    (∀ r : JolokiaResponse,
      (buildException r).isInstanceOf ExcClass.javaExceptionCls = true)
    ∧ ∀ (raiseExceptions : Bool) (fetched : Except TransportError Json)
        (lbl : String) (excs : List PyExc),
        Event.agg lbl excs ∈ requestTrace raiseExceptions fetched →
        ∀ exc ∈ excs, exc.isInstanceOf ExcClass.javaExceptionCls = true := by
  have hbase : ∀ r : JolokiaResponse,
      (buildException r).isInstanceOf ExcClass.javaExceptionCls = true := by
    intro r
    simp [buildException, PyExc.isInstanceOf, ExcClass.isSubclassOf, ExcClass.pyBase]
  refine ⟨hbase, ?_⟩
  intro b fetched lbl excs hmem exc hexc
  cases fetched with
  | error e => simp [requestTrace] at hmem
  | ok body =>
    simp only [requestTrace] at hmem
    rw [List.mem_append] at hmem
    rcases hmem with hmem | hmem
    · exact absurd hmem (agg_not_mem_processEntries (normalize body) lbl excs)
    · split at hmem
      · simp only [List.mem_singleton] at hmem
        injection hmem with h1 h2
        subst h2
        obtain ⟨r0, hr0⟩ := mem_processEntries_excs (normalize body) exc hexc
        rw [hr0]
        exact hbase r0
      · simp at hmem

/-- C10 witness at a concrete aggregate raised for one failed entry. -/
theorem C10_failures_are_java_exceptions_witness :
    throwableExc.isInstanceOf ExcClass.javaExceptionCls = true :=
  C10_failures_are_java_exceptions.2 true (Except.ok (Json.arr [fail500Entry]))
    "JolokiaException" [throwableExc]
    (List.mem_cons_of_mem _ (List.mem_cons_self _ _))
    throwableExc (List.mem_cons_self _ _)

end Aiojolokia
